import Mathlib

/-!
Verification of the stepper-motion motion engine (motion profile generation,
step-by-step execution, soft limits, position tracking and the `move_to`
driver entry point).

Numeric model of the embedding:

* Rust `f32` values are modelled as exact rationals (`ℚ`).  All arithmetic the
  source performs on `f32` is carried out exactly; every concrete input used in
  a counterexample below is chosen so that the source's `f32` computation is
  itself exact (all intermediate values are exactly representable), so the
  concrete evaluations agree with the real binary.
* `u32` values are modelled as `ℕ` with explicit truncation (`% 2 ^ 32`) or
  saturation at the points where the source casts; `u32::MAX` is `2 ^ 32 - 1`.
* `i64` values are modelled as `ℤ`; the Rust saturating `f32 -> i64` cast
  (truncation toward zero, saturating at the type bounds) is `f32toI64`.
* `libm::sqrtf` is modelled by an exact rational square root that agrees with
  IEEE `sqrtf` on perfect squares; every concrete evaluation involving it uses
  a perfect-square argument.
* The hardware capabilities (STEP pin, DIR pin, delay provider) are modelled
  as an event log: each pin edge or delay is appended to a list of `PinEvent`s
  and never fails.  The `embedded_hal` pin-failure paths of the source are
  therefore unreachable in the model; none of the verified claims concerns
  pin failure.
-/

/-- Maximal value of a `u32`, the saturation bound and the sentinel interval. -/
def u32MAX : ℕ := 2 ^ 32 - 1

/-- Rust saturating cast from `f32` to `u32`: truncation toward zero, negative
values go to `0`, values at or above `2 ^ 32` saturate to `u32::MAX`. -/
def f32toU32 (q : ℚ) : ℕ := min ⌊q⌋.toNat u32MAX

/-- Truncation of a rational toward zero (the rounding used by Rust `as` casts
from floats to integers). -/
def ratTrunc (q : ℚ) : ℤ := if q < 0 then -⌊-q⌋ else ⌊q⌋

/-- Rust saturating cast from `f32` to `i64`. -/
def f32toI64 (q : ℚ) : ℤ := max (min (ratTrunc q) (2 ^ 63 - 1)) (-(2 ^ 63))

/-- Model of `libm::sqrtf`: exact rational square root, computed through
`Nat.sqrt` on `num * den`; exact whenever the argument is a perfect square. -/
def sqrtf (q : ℚ) : ℚ := (Nat.sqrt (q.num.natAbs * q.den) : ℚ) / (q.den : ℚ)

/-- Direction of motor motion (`motion/profile.rs`). -/
inductive Direction where
  | Clockwise
  | CounterClockwise
deriving DecidableEq

/-- Direction from a signed step count (`Direction::from_steps`). -/
def Direction.from_steps (steps : ℤ) : Direction :=
  if 0 ≤ steps then Direction.Clockwise else Direction.CounterClockwise

/-- Sign multiplier of a direction (`Direction::sign`). -/
def Direction.sign : Direction → ℤ
  | Direction.Clockwise => 1
  | Direction.CounterClockwise => -1

/-- Current phase of motion execution (`motion/profile.rs`). -/
inductive MotionPhase where
  | Accelerating
  | Cruising
  | Decelerating
  | Complete
deriving DecidableEq

/-- Computed motion profile for a move (`struct MotionProfile`).  The
`u32` fields are `ℕ`, the `f32` rate fields are `ℚ`. -/
structure MotionProfile where
  total_steps : ℕ
  direction : Direction
  accel_steps : ℕ
  cruise_steps : ℕ
  decel_steps : ℕ
  initial_interval_ns : ℕ
  cruise_interval_ns : ℕ
  accel_rate : ℚ
  decel_rate : ℚ
deriving DecidableEq

/-- Zero-length profile (`MotionProfile::zero`). -/
def MotionProfile.zero : MotionProfile :=
  { total_steps := 0
    direction := Direction.Clockwise
    accel_steps := 0
    cruise_steps := 0
    decel_steps := 0
    initial_interval_ns := u32MAX
    cruise_interval_ns := u32MAX
    accel_rate := 0
    decel_rate := 0 }

/-- Asymmetric trapezoidal profile (`MotionProfile::asymmetric_trapezoidal`).
`total_steps.unsigned_abs() as u32` is the truncating `u64 -> u32` cast, hence
`% 2 ^ 32`; the phase-step casts `as u32` are the saturating float casts. -/
def MotionProfile.asymmetric_trapezoidal (total_steps : ℤ)
    (max_velocity acceleration deceleration : ℚ) : MotionProfile :=
  let direction := Direction.from_steps total_steps
  let steps : ℕ := total_steps.natAbs % 2 ^ 32
  if steps = 0 ∨ max_velocity ≤ 0 ∨ acceleration ≤ 0 ∨ deceleration ≤ 0 then
    MotionProfile.zero
  else
    let t_accel := max_velocity / acceleration
    let t_decel := max_velocity / deceleration
    let accel_distance := (1 / 2 : ℚ) * acceleration * t_accel * t_accel
    let decel_distance := (1 / 2 : ℚ) * deceleration * t_decel * t_decel
    let acd :=
      if accel_distance + decel_distance ≥ (steps : ℚ) then
        let ratio := acceleration / (acceleration + deceleration)
        let accel_steps := f32toU32 ((steps : ℚ) * ratio)
        let decel_steps := steps - accel_steps
        (accel_steps, 0, decel_steps)
      else
        let accel_steps := f32toU32 accel_distance
        let decel_steps := f32toU32 decel_distance
        let cruise_steps := steps - (accel_steps + decel_steps)
        (accel_steps, cruise_steps, decel_steps)
    let initial_velocity := sqrtf (2 * acceleration)
    let initial_interval_ns := f32toU32 (1000000000 / initial_velocity)
    let cruise_interval_ns := f32toU32 (1000000000 / max_velocity)
    { total_steps := steps
      direction := direction
      accel_steps := acd.1
      cruise_steps := acd.2.1
      decel_steps := acd.2.2
      initial_interval_ns := initial_interval_ns
      cruise_interval_ns := cruise_interval_ns
      accel_rate := acceleration
      decel_rate := deceleration }

/-- Symmetric trapezoidal profile (`MotionProfile::symmetric_trapezoidal`). -/
def MotionProfile.symmetric_trapezoidal (total_steps : ℤ)
    (max_velocity acceleration : ℚ) : MotionProfile :=
  MotionProfile.asymmetric_trapezoidal total_steps max_velocity acceleration acceleration

/-- Zero-length test (`MotionProfile::is_zero`). -/
def MotionProfile.is_zero (p : MotionProfile) : Bool :=
  p.total_steps == 0

/-- Phase at a given step number (`MotionProfile::phase_at`). -/
def MotionProfile.phase_at (p : MotionProfile) (step : ℕ) : MotionPhase :=
  if p.total_steps ≤ step then MotionPhase.Complete
  else if step < p.accel_steps then MotionPhase.Accelerating
  else if step < p.accel_steps + p.cruise_steps then MotionPhase.Cruising
  else MotionPhase.Decelerating

/-- Step interval for a given step number (`MotionProfile::interval_at`);
linear interpolation between the initial and cruise intervals, computed in
`f32` and cast back to `u32`. -/
def MotionProfile.interval_at (p : MotionProfile) (step : ℕ) : ℕ :=
  match p.phase_at step with
  | MotionPhase.Complete => u32MAX
  | MotionPhase.Cruising => p.cruise_interval_ns
  | MotionPhase.Accelerating =>
      let progress : ℚ := (step : ℚ) / ((max p.accel_steps 1 : ℕ) : ℚ)
      f32toU32 ((p.initial_interval_ns : ℚ) -
        ((p.initial_interval_ns : ℚ) - (p.cruise_interval_ns : ℚ)) * progress)
  | MotionPhase.Decelerating =>
      let decel_step := step - p.accel_steps - p.cruise_steps
      let progress : ℚ := (decel_step : ℚ) / ((max p.decel_steps 1 : ℕ) : ℚ)
      f32toU32 ((p.cruise_interval_ns : ℚ) +
        ((p.initial_interval_ns : ℚ) - (p.cruise_interval_ns : ℚ)) * progress)

/-- Runtime state during motion execution (`motion/executor.rs`,
`struct MotionExecutor`). -/
structure MotionExecutor where
  profile : MotionProfile
  current_step : ℕ
  current_interval_ns : ℕ
  phase : MotionPhase
deriving DecidableEq

/-- Fresh executor for a profile (`MotionExecutor::new`). -/
def MotionExecutor.new (profile : MotionProfile) : MotionExecutor :=
  { profile := profile
    current_step := 0
    current_interval_ns := if profile.is_zero then u32MAX else profile.initial_interval_ns
    phase := if profile.is_zero then MotionPhase.Complete else MotionPhase.Accelerating }

/-- Completion test (`MotionExecutor::is_complete`). -/
def MotionExecutor.is_complete (e : MotionExecutor) : Bool :=
  e.phase == MotionPhase.Complete

/-- Steps remaining (`MotionExecutor::steps_remaining`); `ℕ` subtraction is the
source's `saturating_sub`. -/
def MotionExecutor.steps_remaining (e : MotionExecutor) : ℕ :=
  e.profile.total_steps - e.current_step

/-- Progress fraction (`MotionExecutor::progress`), an `f32` in the source. -/
def MotionExecutor.progress (e : MotionExecutor) : ℚ :=
  if e.profile.total_steps = 0 then 1
  else (e.current_step : ℚ) / (e.profile.total_steps : ℚ)

/-- Advance to the next step (`MotionExecutor::advance`).  The source mutates
`self` and returns a `bool`; the model returns the pair. -/
def MotionExecutor.advance (e : MotionExecutor) : Bool × MotionExecutor :=
  if e.is_complete then (false, e)
  else
    let cs := e.current_step + 1
    if e.profile.total_steps ≤ cs then
      (false, { e with current_step := cs, phase := MotionPhase.Complete,
                       current_interval_ns := u32MAX })
    else
      (true, { e with current_step := cs, phase := e.profile.phase_at cs,
                      current_interval_ns := e.profile.interval_at cs })

/-- Reset to the beginning (`MotionExecutor::reset`). -/
def MotionExecutor.reset (e : MotionExecutor) : MotionExecutor :=
  { e with
    current_step := 0
    phase := if e.profile.is_zero then MotionPhase.Complete else MotionPhase.Accelerating
    current_interval_ns := if e.profile.is_zero then u32MAX
                           else e.profile.initial_interval_ns }

/-- Iterate `advance` a given number of times (specification-side helper used
to state the executor claims). -/
def MotionExecutor.advanceN (e : MotionExecutor) : ℕ → MotionExecutor
  | 0 => e
  | Nat.succ n => ((e.advanceN n).advance).2

/-- Inductive invariant of a `MotionExecutor`: the cursor never passes the
profile's total step count, and the phase is `Complete` exactly when the
cursor has reached it. -/
def ExecInv (e : MotionExecutor) : Prop :=
  e.current_step ≤ e.profile.total_steps ∧
    (e.phase = MotionPhase.Complete ↔ e.profile.total_steps ≤ e.current_step)

/-- Limit-violation policy (`config/limits.rs`, `enum LimitPolicy`). -/
inductive LimitPolicy where
  | Reject
  | Clamp
deriving DecidableEq

/-- Soft limits converted to steps (`config/limits.rs`, `struct StepLimits`). -/
structure StepLimits where
  min_steps : ℤ
  max_steps : ℤ
  policy : LimitPolicy
deriving DecidableEq

/-- Containment test (`StepLimits::contains`). -/
def StepLimits.contains (l : StepLimits) (steps : ℤ) : Bool :=
  decide (l.min_steps ≤ steps) && decide (steps ≤ l.max_steps)

/-- Apply the limit policy to a target (`StepLimits::apply`): `some` if valid
or clamped, `none` if rejected. -/
def StepLimits.apply (l : StepLimits) (target : ℤ) : Option ℤ :=
  if l.contains target then some target
  else
    match l.policy with
    | LimitPolicy.Reject => none
    | LimitPolicy.Clamp =>
        if target < l.min_steps then some l.min_steps else some l.max_steps

/-- Degrees-to-steps conversion (`Steps::from_degrees`): an `f32` product cast
to `i64` with the saturating truncation. -/
def Steps.from_degrees (degrees : ℚ) (steps_per_degree : ℚ) : ℤ :=
  f32toI64 (degrees * steps_per_degree)

/-- Steps-to-degrees conversion (`Steps::to_degrees`); the `i64 as f32`
rounding of the source is exact in the rational model. -/
def Steps.to_degrees (steps : ℤ) (steps_per_degree : ℚ) : ℚ :=
  (steps : ℚ) / steps_per_degree

/-- Absolute position tracker (`motor/position.rs`, `struct Position`). -/
structure Position where
  steps : ℤ
  steps_per_degree : ℚ
deriving DecidableEq

/-- Position in degrees (`Position::degrees`). -/
def Position.degrees (p : Position) : ℚ :=
  Steps.to_degrees p.steps p.steps_per_degree

/-- Set the position from degrees (`Position::set_degrees`). -/
def Position.set_degrees (p : Position) (degrees : ℚ) : Position :=
  { p with steps := Steps.from_degrees degrees p.steps_per_degree }

/-- Move by a number of steps (`Position::move_steps`). -/
def Position.move_steps (p : Position) (delta : ℤ) : Position :=
  { p with steps := p.steps + delta }

/-- Motor operation errors (`error.rs`, `enum MotorError`; the variants the
verified operations can produce). -/
inductive MotorError where
  | PinError
  | NotInitialized
  | LimitExceeded (position : ℤ) (limit : ℤ)
deriving DecidableEq

/-- Motion errors (`error.rs`, `enum MotionError`; the variant the verified
operations can produce). -/
inductive MotionError where
  | MoveTooShort (steps : ℤ) (minimum : ℤ)
deriving DecidableEq

/-- Unified error type (`error.rs`, `enum Error`; the `Config` and
`Trajectory` variants are not reachable from the verified operations and are
omitted). -/
inductive Error where
  | Motor (e : MotorError)
  | Motion (e : MotionError)
deriving DecidableEq

/-- One hardware interaction: a pin edge or a delay, recorded in order. -/
inductive PinEvent where
  | StepHigh
  | StepLow
  | DirHigh
  | DirLow
  | DelayNs (ns : ℕ)
deriving DecidableEq

/-- Derived mechanical parameters (`config/mechanical.rs`,
`struct MechanicalConstraints`). -/
structure MechanicalConstraints where
  steps_per_revolution : ℕ
  steps_per_degree : ℚ
  max_velocity_steps_per_sec : ℚ
  max_acceleration_steps_per_sec2 : ℚ
  min_step_interval_ns : ℕ
  limits : Option StepLimits
deriving DecidableEq

/-- Stepper motor driver (`motor/driver.rs`, `struct StepperMotor`).  The
hardware pin and delay capabilities are externalized into `PinEvent` logs; the
type-state tag is erased (an `Idle` motor is one whose `executor` is `none`,
exactly as the source maintains it). -/
structure StepperMotor where
  position : Position
  current_direction : Option Direction
  constraints : MechanicalConstraints
  invert_direction : Bool
  backlash_steps : ℤ
  executor : Option MotionExecutor
deriving DecidableEq

/-- Direction-pin write, edge-triggered on the cached direction
(`StepperMotor::set_direction`). -/
def StepperMotor.set_direction (m : StepperMotor) (direction : Direction) :
    StepperMotor × List PinEvent :=
  if m.current_direction = some direction then (m, [])
  else
    let pin_high :=
      match direction with
      | Direction.Clockwise => !m.invert_direction
      | Direction.CounterClockwise => m.invert_direction
    ({ m with current_direction := some direction },
      if pin_high then [PinEvent.DirHigh] else [PinEvent.DirLow])

/-- Start a move to an absolute position in degrees (`StepperMotor::move_to`,
`Idle` state).  On error the motor is handed back unchanged together with the
error; on success the returned motor is the `Moving`-state value. -/
def StepperMotor.move_to (m : StepperMotor) (target : ℚ) :
    Except (StepperMotor × Error) StepperMotor × List PinEvent :=
  let target_steps := Steps.from_degrees target m.constraints.steps_per_degree
  let delta_steps := target_steps - m.position.steps
  if delta_steps = 0 then
    (Except.error (m, Error.Motion (MotionError.MoveTooShort 0 1)), [])
  else
    let limit_check := m.constraints.limits.bind fun limits =>
      if (limits.apply target_steps).isNone then
        some (if delta_steps > 0 then limits.max_steps else limits.min_steps)
      else none
    match limit_check with
    | some limit =>
        (Except.error (m, Error.Motor (MotorError.LimitExceeded target_steps limit)), [])
    | none =>
        let profile := MotionProfile.symmetric_trapezoidal delta_steps
          m.constraints.max_velocity_steps_per_sec
          m.constraints.max_acceleration_steps_per_sec2
        let direction := profile.direction
        let md := m.set_direction direction
        (Except.ok { md.1 with executor := some (MotionExecutor.new profile) }, md.2)

/-- Completion test of a `Moving` motor (`StepperMotor::is_complete`). -/
def StepperMotor.is_complete (m : StepperMotor) : Bool :=
  (m.executor.map MotionExecutor.is_complete).getD true

/-- One step pulse (`StepperMotor::step`, `Moving` state): raise STEP, hold the
pulse width (2 µs), lower STEP, advance the position by one signed step, read
the interval of the step just issued, advance the executor and, if more steps
remain, wait out the rest of the interval.  Returns whether the move is now
complete. -/
def StepperMotor.step (m : StepperMotor) :
    Except Error Bool × StepperMotor × List PinEvent :=
  match m.executor with
  | none => (Except.error (Error.Motor MotorError.NotInitialized), m, [])
  | some ex =>
    if ex.is_complete then (Except.ok true, m, [])
    else
      let direction := ex.profile.direction
      let position := m.position.move_steps direction.sign
      let interval_ns := ex.current_interval_ns
      let adv := ex.advance
      let m' := { m with position := position, executor := some adv.2 }
      let tail :=
        if adv.1 then
          let delay_ns := interval_ns - 2000
          if 0 < delay_ns then [PinEvent.DelayNs delay_ns] else []
        else []
      (Except.ok (!adv.1), m',
        [PinEvent.StepHigh, PinEvent.DelayNs 2000, PinEvent.StepLow] ++ tail)

/-- Finish a move, discarding the executor (`StepperMotor::finish`). -/
def StepperMotor.finish (m : StepperMotor) : StepperMotor :=
  { m with executor := none }

/-- Fuel-indexed unfolding of the `run_to_completion` loop
(`while !self.is_complete() { self.step()?; } Ok(self.finish())`). -/
def StepperMotor.run_loop : ℕ → StepperMotor → Except Error StepperMotor × List PinEvent
  | 0, m => (Except.ok m.finish, [])
  | Nat.succ fuel, m =>
    if m.is_complete then (Except.ok m.finish, [])
    else
      match m.step with
      | (Except.error e, _, ev) => (Except.error e, ev)
      | (Except.ok _, m', ev) =>
          let r := StepperMotor.run_loop fuel m'
          (r.1, ev ++ r.2)

/-- Run the move to completion (`StepperMotor::run_to_completion`).  The fuel
`steps_remaining + 1` is exactly the number of loop iterations the source
performs, so with this fuel the unfolding equals the source's loop. -/
def StepperMotor.run_to_completion (m : StepperMotor) :
    Except Error StepperMotor × List PinEvent :=
  StepperMotor.run_loop ((m.executor.map MotionExecutor.steps_remaining).getD 0 + 1) m

/-- Outcome of the blocking convenience path (`StepperMotor::move_to_blocking`):
either the `Idle` motor after a completed move, the motor handed back with a
pre-flight error, or the `panic!` the source performs on a mid-move step
error. -/
inductive BlockingOutcome where
  | ok (motor : StepperMotor)
  | err (motor : StepperMotor) (e : Error)
  | panicked (e : Error)
deriving DecidableEq

/-- Final position observer for a blocking-move outcome (specification-side). -/
def BlockingOutcome.finalPositionSteps : BlockingOutcome → Option ℤ
  | BlockingOutcome.ok m => some m.position.steps
  | BlockingOutcome.err _ _ => none
  | BlockingOutcome.panicked _ => none

/-- Move to an absolute position and run to completion
(`StepperMotor::move_to_blocking`). -/
def StepperMotor.move_to_blocking (m : StepperMotor) (target : ℚ) :
    BlockingOutcome × List PinEvent :=
  match m.move_to target with
  | (Except.error me, ev) => (BlockingOutcome.err me.1 me.2, ev)
  | (Except.ok moving, ev) =>
    match moving.run_to_completion with
    | (Except.ok idle, ev') => (BlockingOutcome.ok idle, ev ++ ev')
    | (Except.error e, ev') => (BlockingOutcome.panicked e, ev ++ ev')

/-- Step limits of the Clamp-policy test motor: bounds `[-5, 5]` steps. -/
def clampLimits : StepLimits :=
  { min_steps := -5, max_steps := 5, policy := LimitPolicy.Clamp }

/-- Constraints of the Clamp-policy test motor: 1 step per degree, max
velocity 2 steps/s, max acceleration 2 steps/s². -/
def clampConstraints : MechanicalConstraints :=
  { steps_per_revolution := 360
    steps_per_degree := 1
    max_velocity_steps_per_sec := 2
    max_acceleration_steps_per_sec2 := 2
    min_step_interval_ns := 500000000
    limits := some clampLimits }

/-- Idle Clamp-policy test motor at the origin. -/
def clampMotor : StepperMotor :=
  { position := { steps := 0, steps_per_degree := 1 }
    current_direction := none
    constraints := clampConstraints
    invert_direction := false
    backlash_steps := 0
    executor := none }

/-- Step limits of the Reject-policy test motor: `[-90°, 90°]` at 10 steps per
degree, i.e. `[-900, 900]` steps. -/
def rejectLimits : StepLimits :=
  { min_steps := -900, max_steps := 900, policy := LimitPolicy.Reject }

/-- Constraints of the Reject-policy test motor: 10 steps per degree. -/
def rejectConstraints : MechanicalConstraints :=
  { steps_per_revolution := 3600
    steps_per_degree := 10
    max_velocity_steps_per_sec := 1000
    max_acceleration_steps_per_sec2 := 2000
    min_step_interval_ns := 1000000
    limits := some rejectLimits }

/-- Idle Reject-policy test motor at the origin. -/
def rejectMotor : StepperMotor :=
  { position := { steps := 0, steps_per_degree := 10 }
    current_direction := none
    constraints := rejectConstraints
    invert_direction := false
    backlash_steps := 0
    executor := none }

/-- Expected motion profile of the Clamp-policy scenario: the profile the
source computes for `symmetric_trapezoidal(9, 2.0, 2.0)`. -/
def clampProfile : MotionProfile :=
  { total_steps := 9, direction := Direction.Clockwise, accel_steps := 1,
    cruise_steps := 7, decel_steps := 1, initial_interval_ns := 500000000,
    cruise_interval_ns := 500000000, accel_rate := 2, decel_rate := 2 }

/-- Expected Moving-state motor of the Clamp-policy scenario. -/
def clampMoving : StepperMotor :=
  { position := { steps := 0, steps_per_degree := 1 },
    current_direction := some Direction.Clockwise,
    constraints := clampConstraints, invert_direction := false,
    backlash_steps := 0, executor := some (MotionExecutor.new clampProfile) }

theorem f32toU32_le {q : ℚ} {n : ℕ} (h : q ≤ (n : ℚ)) : f32toU32 q ≤ n := by
  unfold f32toU32
  have h1 : ⌊q⌋ ≤ (n : ℤ) := by
    have h2 := Int.floor_le_floor h
    simpa using h2
  omega

theorem f32toU32_cast_le {q : ℚ} (h : 0 ≤ q) : (f32toU32 q : ℚ) ≤ q := by
  have h0 : (0 : ℤ) ≤ ⌊q⌋ := Int.floor_nonneg.mpr h
  have h1 : ((f32toU32 q : ℕ) : ℤ) ≤ ⌊q⌋ := by unfold f32toU32; omega
  calc ((f32toU32 q : ℕ) : ℚ) ≤ ((⌊q⌋ : ℤ) : ℚ) := by exact_mod_cast h1
    _ ≤ q := Int.floor_le q

theorem le_f32toU32 {n : ℕ} {q : ℚ} (hq : (n : ℚ) ≤ q) (hn : n ≤ u32MAX) :
    n ≤ f32toU32 q := by
  have h1 : (n : ℤ) ≤ ⌊q⌋ := Int.le_floor.mpr (by exact_mod_cast hq)
  unfold f32toU32
  omega

theorem f32toU32_le_u32MAX (q : ℚ) : f32toU32 q ≤ u32MAX :=
  min_le_right _ _

theorem phase_at_ne_complete {p : MotionProfile} {step : ℕ}
    (h : step < p.total_steps) : p.phase_at step ≠ MotionPhase.Complete := by
  unfold MotionProfile.phase_at
  have h1 : ¬ p.total_steps ≤ step := by omega
  simp only [h1, if_false]
  split_ifs <;> simp

theorem is_complete_iff (e : MotionExecutor) :
    e.is_complete = true ↔ e.phase = MotionPhase.Complete := by
  simp [MotionExecutor.is_complete]

theorem advance_of_complete {e : MotionExecutor}
    (h : e.phase = MotionPhase.Complete) : e.advance = (false, e) := by
  have h1 : e.is_complete = true := (is_complete_iff e).mpr h
  unfold MotionExecutor.advance
  simp [h1]

theorem advance_of_not_complete {e : MotionExecutor}
    (h : e.phase ≠ MotionPhase.Complete) :
    (e.advance).2.current_step = e.current_step + 1 ∧
      (e.advance).2.profile = e.profile := by
  have h1 : e.is_complete = false := by
    rcases Bool.eq_false_or_eq_true e.is_complete with h2 | h2
    · exact absurd ((is_complete_iff e).mp h2) h
    · exact h2
  unfold MotionExecutor.advance
  rw [h1]
  simp only [Bool.false_eq_true, if_false]
  split_ifs <;> simp

theorem execInv_new (p : MotionProfile) : ExecInv (MotionExecutor.new p) := by
  unfold ExecInv MotionExecutor.new MotionProfile.is_zero
  by_cases h : p.total_steps = 0 <;> simp [h]

theorem execInv_reset (e : MotionExecutor) : ExecInv e.reset := by
  unfold ExecInv MotionExecutor.reset MotionProfile.is_zero
  by_cases h : e.profile.total_steps = 0 <;> simp [h]

theorem execInv_advance {e : MotionExecutor} (h : ExecInv e) :
    ExecInv (e.advance).2 := by
  obtain ⟨h1, h2⟩ := h
  by_cases hc : e.phase = MotionPhase.Complete
  · rw [advance_of_complete hc]
    exact ⟨h1, h2⟩
  · have hlt : e.current_step < e.profile.total_steps := by
      rcases Nat.lt_or_ge e.current_step e.profile.total_steps with h3 | h3
      · exact h3
      · exact absurd (h2.mpr h3) hc
    have h4 : e.is_complete = false := by
      rcases Bool.eq_false_or_eq_true e.is_complete with h5 | h5
      · exact absurd ((is_complete_iff e).mp h5) hc
      · exact h5
    unfold MotionExecutor.advance
    rw [h4]
    simp only [Bool.false_eq_true, if_false]
    split_ifs with h5
    · exact ⟨by simp only []; omega, by simp [h5]⟩
    · refine ⟨by simp; omega, ?_⟩
      simp only []
      constructor
      · intro h6
        exact absurd h6 (phase_at_ne_complete (by simpa using h5))
      · intro h6
        omega

theorem advance_direction {e : MotionExecutor} :
    ((e.advance).2).profile = e.profile := by
  unfold MotionExecutor.advance
  simp only []
  split_ifs <;> rfl

theorem steps_remaining_advance {e : MotionExecutor}
    (hinv : ExecInv e) (h : e.phase ≠ MotionPhase.Complete) :
    (e.advance).2.steps_remaining = e.steps_remaining - 1 ∧ 1 ≤ e.steps_remaining := by
  obtain ⟨h1, h2⟩ := hinv
  have hlt : e.current_step < e.profile.total_steps := by
    rcases Nat.lt_or_ge e.current_step e.profile.total_steps with h3 | h3
    · exact h3
    · exact absurd (h2.mpr h3) h
  obtain ⟨hcur, hprof⟩ := advance_of_not_complete h
  unfold MotionExecutor.steps_remaining
  rw [hcur, hprof]
  omega

theorem step_of_executor {m : StepperMotor} {e : MotionExecutor}
    (hm : m.executor = some e) (h : e.is_complete = false) :
    m.step = (Except.ok (!(e.advance).1),
      { m with position := m.position.move_steps e.profile.direction.sign,
               executor := some (e.advance).2 },
      [PinEvent.StepHigh, PinEvent.DelayNs 2000, PinEvent.StepLow] ++
        (if (e.advance).1 then
          (if 0 < e.current_interval_ns - 2000 then
            [PinEvent.DelayNs (e.current_interval_ns - 2000)] else [])
         else [])) := by
  unfold StepperMotor.step
  rw [hm]
  simp only [h, Bool.false_eq_true, if_false]

theorem is_complete_motor_iff {m : StepperMotor} {e : MotionExecutor}
    (hm : m.executor = some e) :
    m.is_complete = e.is_complete := by
  unfold StepperMotor.is_complete
  rw [hm]
  simp

theorem run_loop_spec : ∀ (fuel : ℕ) (m : StepperMotor) (e : MotionExecutor),
    m.executor = some e → ExecInv e → e.steps_remaining < fuel →
    ∃ m', (StepperMotor.run_loop fuel m).1 = Except.ok m' ∧
      m'.position.steps =
        m.position.steps + e.profile.direction.sign * (e.steps_remaining : ℤ) ∧
      m'.executor = none := by
  intro fuel
  induction fuel with
  | zero => intro m e hm hinv hf; omega
  | succ fuel ih =>
    intro m e hm hinv hf
    unfold StepperMotor.run_loop
    by_cases hc : e.is_complete = true
    · have hph : e.phase = MotionPhase.Complete := (is_complete_iff e).mp hc
      have hrem : e.steps_remaining = 0 := by
        have h3 := hinv.2.mp hph
        unfold MotionExecutor.steps_remaining
        omega
      rw [is_complete_motor_iff hm, hc]
      refine ⟨m.finish, by simp, ?_, rfl⟩
      rw [hrem]
      simp [StepperMotor.finish]
    · have hcf : e.is_complete = false := by
        rcases Bool.eq_false_or_eq_true e.is_complete with h2 | h2
        · exact absurd h2 hc
        · exact h2
      have hph : e.phase ≠ MotionPhase.Complete := by
        intro h3; exact hc ((is_complete_iff e).mpr h3)
      rw [is_complete_motor_iff hm, hcf]
      simp only [Bool.false_eq_true, if_false]
      rw [step_of_executor hm hcf]
      simp only []
      obtain ⟨hrem, hrem1⟩ := steps_remaining_advance hinv hph
      obtain ⟨m'', hok, hpos, hnone⟩ := ih
        { m with position := m.position.move_steps e.profile.direction.sign,
                 executor := some (e.advance).2 }
        (e.advance).2 rfl (execInv_advance hinv) (by omega)
      refine ⟨m'', by simpa using hok, ?_, hnone⟩
      rw [hpos]
      simp only [Position.move_steps, advance_direction, hrem]
      have hcast : (((e.steps_remaining - 1 : ℕ)) : ℤ) = (e.steps_remaining : ℤ) - 1 := by
        omega
      rw [hcast]
      ring

theorem advanceN_new_spec (p : MotionProfile) : ∀ k, k ≤ p.total_steps →
    (((MotionExecutor.new p).advanceN k).profile = p ∧
      ((MotionExecutor.new p).advanceN k).current_step = k ∧
      (((MotionExecutor.new p).advanceN k).phase = MotionPhase.Complete ↔
        p.total_steps ≤ k)) := by
  intro k
  induction k with
  | zero =>
    intro _
    refine ⟨rfl, rfl, ?_⟩
    unfold MotionExecutor.advanceN MotionExecutor.new MotionProfile.is_zero
    by_cases h : p.total_steps = 0 <;> simp [h]
  | succ k ih =>
    intro hk
    obtain ⟨hprof, hcur, hph⟩ := ih (by omega)
    have hnc : ((MotionExecutor.new p).advanceN k).phase ≠ MotionPhase.Complete := by
      intro h3
      have := hph.mp h3
      omega
    have hcf : ((MotionExecutor.new p).advanceN k).is_complete = false := by
      rcases Bool.eq_false_or_eq_true ((MotionExecutor.new p).advanceN k).is_complete
        with h2 | h2
      · exact absurd ((is_complete_iff _).mp h2) hnc
      · exact h2
    unfold MotionExecutor.advanceN
    unfold MotionExecutor.advance
    rw [hcf]
    simp only [Bool.false_eq_true, if_false, hcur, hprof]
    split_ifs with h5
    · refine ⟨by simp [hprof], by simp, by simp; omega⟩
    · refine ⟨by simp [hprof], by simp, ?_⟩
      simp only []
      constructor
      · intro h6
        exact absurd h6 (phase_at_ne_complete (by omega))
      · intro h6
        omega

/-- C1: for every call `MotionProfile::asymmetric_trapezoidal(signed_steps, v,
a, d)` with `|signed_steps| > 0`, `v > 0`, `a > 0` and `d > 0`, the returned
profile satisfies `accel_steps + cruise_steps + decel_steps == total_steps`,
where `total_steps` is the profile's total unsigned step count. -/
theorem C1_profile_steps_sum (s : ℤ) (v a d : ℚ)
    (hs : s ≠ 0) (hv : 0 < v) (ha : 0 < a) (hd : 0 < d) :
    (MotionProfile.asymmetric_trapezoidal s v a d).accel_steps +
      (MotionProfile.asymmetric_trapezoidal s v a d).cruise_steps +
      (MotionProfile.asymmetric_trapezoidal s v a d).decel_steps =
      (MotionProfile.asymmetric_trapezoidal s v a d).total_steps := by
  unfold MotionProfile.asymmetric_trapezoidal
  simp only []
  set n : ℕ := s.natAbs % 2 ^ 32 with hn
  split_ifs with h1 h2
  · simp [MotionProfile.zero]
  · simp only []
    have hr : a / (a + d) ≤ 1 := by
      rw [div_le_one (by linarith)]
      linarith
    have hle : (n : ℚ) * (a / (a + d)) ≤ (n : ℚ) := by
      calc (n : ℚ) * (a / (a + d)) ≤ (n : ℚ) * 1 :=
            mul_le_mul_of_nonneg_left hr (Nat.cast_nonneg n)
        _ = (n : ℚ) := mul_one _
    have hacc := f32toU32_le hle
    omega
  · simp only []
    have hA0 : (0 : ℚ) ≤ (1 / 2 : ℚ) * a * (v / a) * (v / a) := by positivity
    have hD0 : (0 : ℚ) ≤ (1 / 2 : ℚ) * d * (v / d) * (v / d) := by positivity
    have hAle := f32toU32_cast_le hA0
    have hDle := f32toU32_cast_le hD0
    push_neg at h2
    have hnat : f32toU32 ((1 / 2 : ℚ) * a * (v / a) * (v / a)) +
        f32toU32 ((1 / 2 : ℚ) * d * (v / d) * (v / d)) < n := by
      have hlt : ((f32toU32 ((1 / 2 : ℚ) * a * (v / a) * (v / a)) : ℕ) : ℚ) +
          ((f32toU32 ((1 / 2 : ℚ) * d * (v / d) * (v / d)) : ℕ) : ℚ) <
          (n : ℚ) := by linarith
      exact_mod_cast hlt
    omega

theorem C1_witness :
    (MotionProfile.asymmetric_trapezoidal 1000 1000 2000 1000).accel_steps +
      (MotionProfile.asymmetric_trapezoidal 1000 1000 2000 1000).cruise_steps +
      (MotionProfile.asymmetric_trapezoidal 1000 1000 2000 1000).decel_steps =
      (MotionProfile.asymmetric_trapezoidal 1000 1000 2000 1000).total_steps :=
  C1_profile_steps_sum 1000 1000 2000 1000 (by norm_num) (by norm_num)
    (by norm_num) (by norm_num)

theorem f32toU32_eval {q : ℚ} {n : ℕ} (h1 : (n : ℚ) ≤ q) (h2 : q < (n : ℚ) + 1)
    (h3 : n < 2 ^ 32) : f32toU32 q = n := by
  have hf : ⌊q⌋ = (n : ℤ) := by
    rw [Int.floor_eq_iff]
    constructor
    · exact_mod_cast h1
    · push_cast
      exact h2
  unfold f32toU32 u32MAX
  rw [hf]
  omega

theorem sqrtf_eval (q : ℚ) (n : ℕ) (hq : q = (n : ℚ) * (n : ℚ)) : sqrtf q = n := by
  subst hq
  unfold sqrtf
  have hc : ((n : ℚ) * (n : ℚ)) = ((n * n : ℕ) : ℚ) := by push_cast; ring
  have h1 : ((n : ℚ) * (n : ℚ)).num.natAbs = n * n := by
    rw [hc]
    simp only [Rat.num_natCast, Int.natAbs_ofNat]
  have h2 : ((n : ℚ) * (n : ℚ)).den = 1 := by
    rw [hc]
    simp only [Rat.den_natCast]
  rw [h1, h2]
  simp [Nat.sqrt_eq]

theorem interval_at_ge_cruise {p : MotionProfile}
    (hmax : p.cruise_interval_ns ≤ u32MAX)
    (hic : p.cruise_interval_ns ≤ p.initial_interval_ns) {step : ℕ}
    (hs : step < p.total_steps) :
    p.cruise_interval_ns ≤ p.interval_at step := by
  have hIC : ((p.cruise_interval_ns : ℕ) : ℚ) ≤ ((p.initial_interval_ns : ℕ) : ℚ) := by
    exact_mod_cast hic
  unfold MotionProfile.interval_at
  rcases hph : p.phase_at step with _ | _ | _ | _
  · -- Accelerating
    simp only []
    have hacc : step < p.accel_steps := by
      unfold MotionProfile.phase_at at hph
      split_ifs at hph <;> simp_all
    apply le_f32toU32 _ hmax
    have hm1 : step ≤ max p.accel_steps 1 := by omega
    have hmp : (0 : ℚ) < ((max p.accel_steps 1 : ℕ) : ℚ) := by
      exact_mod_cast (by omega : 0 < max p.accel_steps 1)
    have h1 : (step : ℚ) / ((max p.accel_steps 1 : ℕ) : ℚ) ≤ 1 := by
      rw [div_le_one hmp]
      exact_mod_cast hm1
    have h0 : (0 : ℚ) ≤ (step : ℚ) / ((max p.accel_steps 1 : ℕ) : ℚ) :=
      div_nonneg (Nat.cast_nonneg _) (le_of_lt hmp)
    nlinarith [mul_le_mul_of_nonneg_left h1 (sub_nonneg.mpr hIC)]
  · -- Cruising
    simp only []
    exact le_refl _
  · -- Decelerating
    simp only []
    apply le_f32toU32 _ hmax
    have h0 : (0 : ℚ) ≤
        ((step - p.accel_steps - p.cruise_steps : ℕ) : ℚ) /
          ((max p.decel_steps 1 : ℕ) : ℚ) :=
      div_nonneg (Nat.cast_nonneg _) (Nat.cast_nonneg _)
    nlinarith [mul_nonneg (sub_nonneg.mpr hIC) h0]
  · -- Complete: impossible before the end of the move
    exact absurd hph (phase_at_ne_complete hs)

theorem asym_cruise_interval_le (s : ℤ) (v a d : ℚ) :
    (MotionProfile.asymmetric_trapezoidal s v a d).cruise_interval_ns ≤ u32MAX := by
  unfold MotionProfile.asymmetric_trapezoidal
  simp only []
  split_ifs <;> simp [MotionProfile.zero, f32toU32_le_u32MAX]

theorem profile_1000_4_50_1_eq :
    MotionProfile.asymmetric_trapezoidal 1000 4 50 1 =
      { total_steps := 1000, direction := Direction.Clockwise, accel_steps := 0,
        cruise_steps := 992, decel_steps := 8,
        initial_interval_ns := 100000000, cruise_interval_ns := 250000000,
        accel_rate := 50, decel_rate := 1 } := by
  unfold MotionProfile.asymmetric_trapezoidal
  simp only []
  rw [if_neg (by norm_num), if_neg (by norm_num)]
  have hA : f32toU32 ((1 / 2 : ℚ) * 50 * (4 / 50) * (4 / 50)) = 0 :=
    f32toU32_eval (by norm_num) (by norm_num) (by norm_num)
  have hD : f32toU32 ((1 / 2 : ℚ) * 1 * (4 / 1) * (4 / 1)) = 8 :=
    f32toU32_eval (by norm_num) (by norm_num) (by norm_num)
  have hC : f32toU32 ((1000000000 : ℚ) / 4) = 250000000 :=
    f32toU32_eval (by norm_num) (by norm_num) (by norm_num)
  rw [sqrtf_eval (2 * (50 : ℚ)) 10 (by norm_num), hA, hD, hC]
  have hI : f32toU32 ((1000000000 : ℚ) / ((10 : ℕ) : ℚ)) = 100000000 :=
    f32toU32_eval (by norm_num) (by norm_num) (by norm_num)
  rw [hI]
  norm_num [Direction.from_steps]

/-- C3 counterexample: the profile built from `signed_steps = 1000`,
`max_velocity = 4`, `acceleration = 50`, `deceleration = 1` (all positive, with
`sqrt(2·acceleration) = 10 > max_velocity`) has a step before completion whose
interval is strictly below `cruise_interval_ns`, refuting the claim that the
instantaneous step rate never exceeds `max_velocity`. -/
theorem C3_counterexample :
    (MotionProfile.asymmetric_trapezoidal 1000 4 50 1).interval_at 993 <
      (MotionProfile.asymmetric_trapezoidal 1000 4 50 1).cruise_interval_ns ∧
    993 < (MotionProfile.asymmetric_trapezoidal 1000 4 50 1).total_steps := by
  constructor
  · have hle : (MotionProfile.asymmetric_trapezoidal 1000 4 50 1).interval_at 993 ≤
        231250000 := by
      rw [profile_1000_4_50_1_eq]
      unfold MotionProfile.interval_at MotionProfile.phase_at
      rw [if_neg (by norm_num), if_neg (by norm_num), if_neg (by norm_num)]
      simp only []
      apply f32toU32_le
      norm_num
    have hcr : (MotionProfile.asymmetric_trapezoidal 1000 4 50 1).cruise_interval_ns =
        250000000 := by rw [profile_1000_4_50_1_eq]
    omega
  · rw [profile_1000_4_50_1_eq]
    norm_num

/-- C3 (amended): profiles produced by `asymmetric_trapezoidal` with positive
step count, velocity and rates never run faster than the cruise rate —
`interval_at(step) ≥ cruise_interval_ns` for every step before completion —
provided `initial_interval_ns ≥ cruise_interval_ns` (which holds exactly when
`sqrt(2·acceleration) ≤ max_velocity`); the counterexample shows the claim
fails without that proviso. -/
theorem C3_amended_interval_ge_cruise (s : ℤ) (v a d : ℚ)
    (hs : s ≠ 0) (hv : 0 < v) (ha : 0 < a) (hd : 0 < d)
    (hic : (MotionProfile.asymmetric_trapezoidal s v a d).cruise_interval_ns ≤
      (MotionProfile.asymmetric_trapezoidal s v a d).initial_interval_ns)
    (step : ℕ)
    (hstep : step < (MotionProfile.asymmetric_trapezoidal s v a d).total_steps) :
    (MotionProfile.asymmetric_trapezoidal s v a d).cruise_interval_ns ≤
      (MotionProfile.asymmetric_trapezoidal s v a d).interval_at step :=
  interval_at_ge_cruise (asym_cruise_interval_le s v a d) hic hstep

theorem profile_1000_20_50_1_eq :
    MotionProfile.asymmetric_trapezoidal 1000 20 50 1 =
      { total_steps := 1000, direction := Direction.Clockwise, accel_steps := 4,
        cruise_steps := 796, decel_steps := 200,
        initial_interval_ns := 100000000, cruise_interval_ns := 50000000,
        accel_rate := 50, decel_rate := 1 } := by
  unfold MotionProfile.asymmetric_trapezoidal
  simp only []
  rw [if_neg (by norm_num), if_neg (by norm_num)]
  have hA : f32toU32 ((1 / 2 : ℚ) * 50 * (20 / 50) * (20 / 50)) = 4 :=
    f32toU32_eval (by norm_num) (by norm_num) (by norm_num)
  have hD : f32toU32 ((1 / 2 : ℚ) * 1 * (20 / 1) * (20 / 1)) = 200 :=
    f32toU32_eval (by norm_num) (by norm_num) (by norm_num)
  have hC : f32toU32 ((1000000000 : ℚ) / 20) = 50000000 :=
    f32toU32_eval (by norm_num) (by norm_num) (by norm_num)
  rw [sqrtf_eval (2 * (50 : ℚ)) 10 (by norm_num), hA, hD, hC]
  have hI : f32toU32 ((1000000000 : ℚ) / ((10 : ℕ) : ℚ)) = 100000000 :=
    f32toU32_eval (by norm_num) (by norm_num) (by norm_num)
  rw [hI]
  norm_num [Direction.from_steps]

theorem C3_witness :
    (MotionProfile.asymmetric_trapezoidal 1000 20 50 1).cruise_interval_ns ≤
      (MotionProfile.asymmetric_trapezoidal 1000 20 50 1).interval_at 5 :=
  C3_amended_interval_ge_cruise 1000 20 50 1 (by norm_num) (by norm_num)
    (by norm_num) (by norm_num) (by rw [profile_1000_20_50_1_eq]; norm_num) 5
    (by rw [profile_1000_20_50_1_eq]; norm_num)

/-- C4 counterexample: the symmetric call
`symmetric_trapezoidal(3, 10000, 1000)` lands in the triangle case with an odd
step count and yields `accel_steps = 1 ≠ 2 = decel_steps`, refuting the claim
that a symmetric call always gives `accel_steps == decel_steps`. -/
theorem C4_counterexample :
    (MotionProfile.symmetric_trapezoidal 3 10000 1000).accel_steps = 1 ∧
    (MotionProfile.symmetric_trapezoidal 3 10000 1000).decel_steps = 2 ∧
    (MotionProfile.symmetric_trapezoidal 3 10000 1000).accel_steps ≠
      (MotionProfile.symmetric_trapezoidal 3 10000 1000).decel_steps := by
  have h : (MotionProfile.symmetric_trapezoidal 3 10000 1000).accel_steps = 1 ∧
      (MotionProfile.symmetric_trapezoidal 3 10000 1000).decel_steps = 2 := by
    unfold MotionProfile.symmetric_trapezoidal MotionProfile.asymmetric_trapezoidal
    simp only []
    rw [if_neg (by norm_num), if_pos (by norm_num)]
    have hs3 : Int.natAbs 3 % 2 ^ 32 = 3 := by norm_num
    rw [hs3]
    have hA : f32toU32 (((3 : ℕ) : ℚ) * (1000 / (1000 + 1000))) = 1 :=
      f32toU32_eval (by norm_num) (by norm_num) (by norm_num)
    rw [hA]
    norm_num
  exact ⟨h.1, h.2, by omega⟩

/-- C4 (amended): a symmetric call with positive velocity and rate yields
`accel_steps == decel_steps` whenever a cruise phase exists (the trapezoid
case); in the triangle case (`cruise_steps = 0`) the split is
`accel_steps = total_steps / 2` and `decel_steps = total_steps - total_steps / 2`
(truncating division), so the two sides differ by one when the step count is
odd and are equal exactly when it is even. -/
theorem C4_amended_symmetric_split (s : ℤ) (v a : ℚ) (hv : 0 < v) (ha : 0 < a) :
    (0 < (MotionProfile.symmetric_trapezoidal s v a).cruise_steps →
      (MotionProfile.symmetric_trapezoidal s v a).accel_steps =
        (MotionProfile.symmetric_trapezoidal s v a).decel_steps) ∧
    ((MotionProfile.symmetric_trapezoidal s v a).cruise_steps = 0 →
      (MotionProfile.symmetric_trapezoidal s v a).accel_steps =
        (MotionProfile.symmetric_trapezoidal s v a).total_steps / 2 ∧
      (MotionProfile.symmetric_trapezoidal s v a).decel_steps =
        (MotionProfile.symmetric_trapezoidal s v a).total_steps -
          (MotionProfile.symmetric_trapezoidal s v a).total_steps / 2) := by
  unfold MotionProfile.symmetric_trapezoidal MotionProfile.asymmetric_trapezoidal
  simp only []
  set n : ℕ := s.natAbs % 2 ^ 32 with hn
  have hn32 : n < 2 ^ 32 := by rw [hn]; exact Nat.mod_lt _ (by norm_num)
  split_ifs with h1 h2
  · simp [MotionProfile.zero]
  · simp only []
    have hr : a / (a + a) = 1 / 2 := by
      rw [div_eq_div_iff (by linarith) (by norm_num)]
      ring
    rw [hr]
    have hfl : f32toU32 ((n : ℚ) * (1 / 2)) = n / 2 := by
      apply f32toU32_eval
      · have h5 : 2 * (n / 2) ≤ n := by omega
        have h6 : ((2 * (n / 2) : ℕ) : ℚ) ≤ (n : ℚ) := by exact_mod_cast h5
        push_cast at h6 ⊢
        linarith
      · have h5 : n < 2 * (n / 2) + 2 := by omega
        have h6 : ((n : ℕ) : ℚ) < ((2 * (n / 2) + 2 : ℕ) : ℚ) := by exact_mod_cast h5
        push_cast at h6 ⊢
        linarith
      · omega
    rw [hfl]
    constructor
    · intro h3
      exact absurd h3 (by norm_num)
    · intro _
      exact ⟨rfl, rfl⟩
  · simp only []
    constructor
    · intro _
      trivial
    · intro h3
      exfalso
      have hA0 : (0 : ℚ) ≤ (1 / 2 : ℚ) * a * (v / a) * (v / a) := by positivity
      have hAle := f32toU32_cast_le hA0
      push_neg at h2
      have hnat : f32toU32 ((1 / 2 : ℚ) * a * (v / a) * (v / a)) +
          f32toU32 ((1 / 2 : ℚ) * a * (v / a) * (v / a)) < n := by
        have hlt : ((f32toU32 ((1 / 2 : ℚ) * a * (v / a) * (v / a)) : ℕ) : ℚ) +
            ((f32toU32 ((1 / 2 : ℚ) * a * (v / a) * (v / a)) : ℕ) : ℚ) <
            (n : ℚ) := by linarith
        exact_mod_cast hlt
      omega

theorem C4_witness :
    (MotionProfile.symmetric_trapezoidal 4 10000 1000).accel_steps =
      (MotionProfile.symmetric_trapezoidal 4 10000 1000).total_steps / 2 ∧
    (MotionProfile.symmetric_trapezoidal 4 10000 1000).decel_steps =
      (MotionProfile.symmetric_trapezoidal 4 10000 1000).total_steps -
        (MotionProfile.symmetric_trapezoidal 4 10000 1000).total_steps / 2 :=
  (C4_amended_symmetric_split 4 10000 1000 (by norm_num) (by norm_num)).2 (by
    unfold MotionProfile.symmetric_trapezoidal MotionProfile.asymmetric_trapezoidal
    simp only []
    rw [if_neg (by norm_num), if_pos (by norm_num)])

/-- C8 counterexample: at `signed_steps = -(2^32)` with positive rates the
truncating `u64 -> u32` cast makes the step count zero, so the zero profile is
returned with direction `Clockwise` (the claim expects `CounterClockwise`) and
`total_steps = 0 ≠ 2^32`; and at `signed_steps = 5` with `acceleration = 0`
the zero profile is returned with `total_steps = 0 ≠ 5`, refuting the claim
for arbitrary rate arguments. -/
theorem C8_counterexample :
    (MotionProfile.asymmetric_trapezoidal (-(2 ^ 32)) 1 1 1).direction =
      Direction.Clockwise ∧
    (MotionProfile.asymmetric_trapezoidal (-(2 ^ 32)) 1 1 1).total_steps = 0 ∧
    (MotionProfile.asymmetric_trapezoidal 5 1 0 1).total_steps = 0 := by
  have h1 : MotionProfile.asymmetric_trapezoidal (-(2 ^ 32)) 1 1 1 =
      MotionProfile.zero := by
    unfold MotionProfile.asymmetric_trapezoidal
    simp only []
    rw [if_pos]
    left
    norm_num
  have h2 : MotionProfile.asymmetric_trapezoidal 5 1 0 1 = MotionProfile.zero := by
    unfold MotionProfile.asymmetric_trapezoidal
    simp only []
    rw [if_pos]
    right; right; left
    norm_num
  rw [h1, h2]
  exact ⟨rfl, rfl, rfl⟩

/-- C8 (amended): for positive `v`, `a`, `d` and `0 < |signed_steps| < 2^32`,
the profile's direction is `Clockwise` when `signed_steps ≥ 0` and
`CounterClockwise` when `signed_steps < 0`, and `total_steps = |signed_steps|`;
outside that range (zero or non-positive rates, or `|signed_steps|` a multiple
of `2^32` after the truncating cast) the zero profile is returned instead. -/
theorem C8_amended_direction_total (s : ℤ) (v a d : ℚ) (hv : 0 < v) (ha : 0 < a)
    (hd : 0 < d) (hs : s ≠ 0) (hrange : s.natAbs < 2 ^ 32) :
    ((0 ≤ s → (MotionProfile.asymmetric_trapezoidal s v a d).direction =
        Direction.Clockwise) ∧
      (s < 0 → (MotionProfile.asymmetric_trapezoidal s v a d).direction =
        Direction.CounterClockwise)) ∧
    (MotionProfile.asymmetric_trapezoidal s v a d).total_steps = s.natAbs := by
  have hmod : s.natAbs % 2 ^ 32 = s.natAbs := Nat.mod_eq_of_lt hrange
  unfold MotionProfile.asymmetric_trapezoidal
  simp only []
  rw [if_neg]
  · simp only []
    rw [hmod]
    refine ⟨⟨?_, ?_⟩, rfl⟩
    · intro h0
      unfold Direction.from_steps
      rw [if_pos h0]
    · intro h0
      unfold Direction.from_steps
      rw [if_neg (by omega)]
  · push_neg
    refine ⟨?_, by linarith, by linarith, by linarith⟩
    rw [hmod]
    simpa using hs

theorem C8_witness :
    ((0 ≤ (-100 : ℤ) →
        (MotionProfile.asymmetric_trapezoidal (-100) 1000 2000 2000).direction =
          Direction.Clockwise) ∧
      ((-100 : ℤ) < 0 →
        (MotionProfile.asymmetric_trapezoidal (-100) 1000 2000 2000).direction =
          Direction.CounterClockwise)) ∧
    (MotionProfile.asymmetric_trapezoidal (-100) 1000 2000 2000).total_steps =
      (-100 : ℤ).natAbs :=
  C8_amended_direction_total (-100) 1000 2000 2000 (by norm_num) (by norm_num)
    (by norm_num) (by norm_num) (by norm_num)

/-- C7: for every profile, `advance()` called exactly `total_steps` times from
the fresh executor reaches the `Complete` phase, and the next call returns
`false` with the executor state (cursor, phase, interval) unchanged. -/
theorem C7_advance_total_completes (p : MotionProfile) :
    ((MotionExecutor.new p).advanceN p.total_steps).phase = MotionPhase.Complete ∧
    ((MotionExecutor.new p).advanceN p.total_steps).advance =
      (false, (MotionExecutor.new p).advanceN p.total_steps) := by
  obtain ⟨hprof, hcur, hph⟩ := advanceN_new_spec p p.total_steps (le_refl _)
  have hC : ((MotionExecutor.new p).advanceN p.total_steps).phase =
      MotionPhase.Complete := hph.mpr (le_refl _)
  exact ⟨hC, advance_of_complete hC⟩

/-- C10: every executor maintains the invariant `current_step ≤ total_steps`
with phase `Complete` exactly at the end: `new` and `reset` establish
`current_step = 0` and phase `Complete` iff the profile is zero, `advance`
preserves the invariant, and consequently `steps_remaining` equals
`total_steps - current_step` and `progress` lies in `[0, 1]`. -/
theorem C10_executor_invariant :
    (∀ p : MotionProfile, ExecInv (MotionExecutor.new p) ∧
      (MotionExecutor.new p).current_step = 0 ∧
      ((MotionExecutor.new p).phase = MotionPhase.Complete ↔ p.total_steps = 0)) ∧
    (∀ e : MotionExecutor, ExecInv e.reset ∧ e.reset.current_step = 0 ∧
      (e.reset.phase = MotionPhase.Complete ↔ e.profile.total_steps = 0)) ∧
    (∀ e : MotionExecutor, ExecInv e → ExecInv (e.advance).2) ∧
    (∀ e : MotionExecutor, ExecInv e →
      ((e.steps_remaining : ℤ) =
          (e.profile.total_steps : ℤ) - (e.current_step : ℤ) ∧
        0 ≤ e.progress ∧ e.progress ≤ 1)) := by
  refine ⟨?_, ?_, ?_, ?_⟩
  · intro p
    refine ⟨execInv_new p, rfl, ?_⟩
    unfold MotionExecutor.new MotionProfile.is_zero
    by_cases h : p.total_steps = 0 <;> simp [h]
  · intro e
    refine ⟨execInv_reset e, rfl, ?_⟩
    unfold MotionExecutor.reset MotionProfile.is_zero
    by_cases h : e.profile.total_steps = 0 <;> simp [h]
  · intro e h
    exact execInv_advance h
  · intro e h
    obtain ⟨h1, _⟩ := h
    refine ⟨?_, ?_, ?_⟩
    · unfold MotionExecutor.steps_remaining
      omega
    · unfold MotionExecutor.progress
      split_ifs
      · norm_num
      · positivity
    · unfold MotionExecutor.progress
      split_ifs with h2
      · norm_num
      · rw [div_le_one (by exact_mod_cast Nat.pos_of_ne_zero h2)]
        exact_mod_cast h1

theorem C10_witness : ExecInv ((MotionExecutor.new MotionProfile.zero).advance).2 :=
  C10_executor_invariant.2.2.1 _ (C10_executor_invariant.1 MotionProfile.zero).1

/-- C6: calling `move_to` with a target whose computed step position equals
the motor's current position (delta of zero steps) fails with the
`MoveTooShort` error and hands the motor back unchanged (same `Position`,
cached direction and state), with no pin writes performed. -/
theorem C6_move_too_short (m : StepperMotor) (target : ℚ)
    (h : Steps.from_degrees target m.constraints.steps_per_degree =
      m.position.steps) :
    m.move_to target =
      (Except.error (m, Error.Motion (MotionError.MoveTooShort 0 1)), []) := by
  unfold StepperMotor.move_to
  simp only []
  have hd : Steps.from_degrees target m.constraints.steps_per_degree -
      m.position.steps = 0 := by omega
  rw [if_pos hd]

theorem C6_witness :
    rejectMotor.move_to 0 =
      (Except.error (rejectMotor, Error.Motion (MotionError.MoveTooShort 0 1)),
        []) :=
  C6_move_too_short rejectMotor 0 (by
    norm_num [Steps.from_degrees, f32toI64, ratTrunc, rejectMotor,
      rejectConstraints])

/-- C5: on an Idle motor with a Reject-policy soft limit whose current
position is within the limits, `move_to` to a target whose step position lies
outside the limits fails with the limit-exceeded error carrying the violated
bound, hands the motor back unchanged (still Idle, prior position), and writes
no pin. -/
theorem C5_reject_limit_error (m : StepperMotor) (target : ℚ) (L : StepLimits)
    (hL : m.constraints.limits = some L) (hpol : L.policy = LimitPolicy.Reject)
    (hpos : L.contains m.position.steps = true)
    (htgt : L.contains
      (Steps.from_degrees target m.constraints.steps_per_degree) = false) :
    m.move_to target =
      (Except.error (m, Error.Motor (MotorError.LimitExceeded
          (Steps.from_degrees target m.constraints.steps_per_degree)
          (if Steps.from_degrees target m.constraints.steps_per_degree -
              m.position.steps > 0 then L.max_steps else L.min_steps))), []) := by
  have hne : Steps.from_degrees target m.constraints.steps_per_degree -
      m.position.steps ≠ 0 := by
    intro h0
    have heq : Steps.from_degrees target m.constraints.steps_per_degree =
        m.position.steps := by omega
    rw [heq, hpos] at htgt
    simp at htgt
  have happ : L.apply
      (Steps.from_degrees target m.constraints.steps_per_degree) = none := by
    unfold StepLimits.apply
    rw [htgt]
    simp only [Bool.false_eq_true, if_false]
    rw [hpol]
  unfold StepperMotor.move_to
  simp only []
  rw [if_neg hne, hL]
  simp only [Option.some_bind, happ, Option.isNone_none, if_pos]

theorem C5_witness :
    rejectMotor.move_to 91 =
      (Except.error (rejectMotor,
        Error.Motor (MotorError.LimitExceeded 910 900)), []) := by
  have hts : Steps.from_degrees 91 rejectMotor.constraints.steps_per_degree =
      910 := by
    norm_num [Steps.from_degrees, f32toI64, ratTrunc, rejectMotor,
      rejectConstraints]
  have h := C5_reject_limit_error rejectMotor 91 rejectLimits rfl rfl
    (by decide) (by rw [hts]; decide)
  rw [h, hts]
  norm_num [rejectMotor, rejectConstraints, rejectLimits]

theorem profile_9_2_2_eq :
    MotionProfile.symmetric_trapezoidal 9 2 2 = clampProfile := by
  unfold MotionProfile.symmetric_trapezoidal MotionProfile.asymmetric_trapezoidal
    clampProfile
  simp only []
  rw [if_neg (by norm_num), if_neg (by norm_num)]
  have hA : f32toU32 ((1 / 2 : ℚ) * 2 * (2 / 2) * (2 / 2)) = 1 :=
    f32toU32_eval (by norm_num) (by norm_num) (by norm_num)
  have hC : f32toU32 ((1000000000 : ℚ) / 2) = 500000000 :=
    f32toU32_eval (by norm_num) (by norm_num) (by norm_num)
  rw [sqrtf_eval (2 * (2 : ℚ)) 2 (by norm_num), hA, hC]
  have hI : f32toU32 ((1000000000 : ℚ) / ((2 : ℕ) : ℚ)) = 500000000 :=
    f32toU32_eval (by norm_num) (by norm_num) (by norm_num)
  rw [hI]
  norm_num [Direction.from_steps]

theorem clamp_move_to_eq :
    clampMotor.move_to 9 = (Except.ok clampMoving, [PinEvent.DirHigh]) := by
  have hts : Steps.from_degrees 9 clampMotor.constraints.steps_per_degree =
      9 := by
    norm_num [Steps.from_degrees, f32toI64, ratTrunc, clampMotor,
      clampConstraints]
  have happ : clampLimits.apply 9 = some 5 := by decide
  have hsd : clampMotor.set_direction Direction.Clockwise =
      ({ position := { steps := 0, steps_per_degree := 1 },
         current_direction := some Direction.Clockwise,
         constraints := clampConstraints, invert_direction := false,
         backlash_steps := 0, executor := none }, [PinEvent.DirHigh]) := by
    unfold StepperMotor.set_direction clampMotor
    norm_num
    simp
  unfold StepperMotor.move_to
  simp only []
  rw [hts]
  have hpos0 : clampMotor.position.steps = 0 := rfl
  rw [hpos0]
  rw [if_neg (by norm_num)]
  have hlim : clampMotor.constraints.limits = some clampLimits := rfl
  rw [hlim]
  simp only [Option.some_bind, happ, Option.isNone_some, Bool.false_eq_true,
    if_false]
  have hv2 : clampMotor.constraints.max_velocity_steps_per_sec = 2 := rfl
  have ha2 : clampMotor.constraints.max_acceleration_steps_per_sec2 = 2 := rfl
  rw [hv2, ha2, show (9 - 0 : ℤ) = 9 by norm_num, profile_9_2_2_eq]
  have hdir : clampProfile.direction = Direction.Clockwise := rfl
  rw [hdir, hsd]
  unfold clampMoving
  norm_num

/-- C2: with a Clamp-policy soft limit bounded by 5 steps, `move_to` to the
out-of-range target 9° (9 steps) is accepted, but the computed clamped value
is discarded: after `run_to_completion` the motor sits at the raw target
(9 steps), not at the limit bound (5 steps).  The code contradicts the
documented Clamp semantics ("truncate to bound"). -/
theorem C2_clamp_bug :
    BlockingOutcome.finalPositionSteps (clampMotor.move_to_blocking 9).1 =
      some 9 ∧
    clampMotor.constraints.limits = some clampLimits ∧
    clampLimits.policy = LimitPolicy.Clamp ∧
    clampLimits.max_steps = 5 ∧ (9 : ℤ) ≠ 5 := by
  refine ⟨?_, rfl, rfl, rfl, by norm_num⟩
  have hinv : ExecInv (MotionExecutor.new clampProfile) := execInv_new clampProfile
  have hrem : (MotionExecutor.new clampProfile).steps_remaining = 9 := rfl
  obtain ⟨m', hok, hpos, hnone⟩ := run_loop_spec 10 clampMoving
    (MotionExecutor.new clampProfile) rfl hinv (by rw [hrem]; norm_num)
  have hfuel : ((clampMoving.executor.map MotionExecutor.steps_remaining).getD 0
      + 1) = 10 := rfl
  have hrtc : (clampMoving.run_to_completion).1 = Except.ok m' := by
    unfold StepperMotor.run_to_completion
    rw [hfuel]
    exact hok
  have hpair : clampMoving.run_to_completion =
      (Except.ok m', (clampMoving.run_to_completion).2) := by
    have h2 : clampMoving.run_to_completion =
        ((clampMoving.run_to_completion).1, (clampMoving.run_to_completion).2) :=
      rfl
    rw [hrtc] at h2
    exact h2
  unfold StepperMotor.move_to_blocking
  rw [clamp_move_to_eq]
  simp only []
  rw [hpair]
  simp only [BlockingOutcome.finalPositionSteps]
  rw [hpos]
  norm_num [clampMoving, MotionExecutor.new, clampProfile,
    MotionExecutor.steps_remaining, Direction.sign]

theorem ratTrunc_abs_le (q : ℚ) : |((ratTrunc q : ℤ) : ℚ)| ≤ |q| := by
  unfold ratTrunc
  split_ifs with h
  · have h1 : (0 : ℤ) ≤ ⌊-q⌋ := Int.floor_nonneg.mpr (by linarith)
    have h1q : (0 : ℚ) ≤ ((⌊-q⌋ : ℤ) : ℚ) := by exact_mod_cast h1
    have h2 : ((⌊-q⌋ : ℤ) : ℚ) ≤ -q := Int.floor_le _
    rw [abs_of_nonpos (by push_cast; linarith), abs_of_neg h]
    push_cast
    linarith
  · have h0 : 0 ≤ q := not_lt.mp h
    have h1 : (0 : ℤ) ≤ ⌊q⌋ := Int.floor_nonneg.mpr h0
    rw [abs_of_nonneg (by exact_mod_cast h1), abs_of_nonneg h0]
    exact Int.floor_le q

theorem ratTrunc_err_lt (q : ℚ) : |((ratTrunc q : ℤ) : ℚ) - q| < 1 := by
  unfold ratTrunc
  split_ifs with h
  · have h1 := Int.floor_le (-q)
    have h2 := Int.lt_floor_add_one (-q)
    rw [abs_lt]
    push_cast
    constructor <;> linarith
  · have h1 := Int.floor_le q
    have h2 := Int.lt_floor_add_one q
    rw [abs_lt]
    constructor <;> linarith

/-- C9 counterexample: with `steps_per_degree = 1` (derived from
`steps_per_revolution = 360`) and `d = 2^64`, the saturating `f32 -> i64` cast
clamps the step count to `2^63 - 1`, so `set_degrees(d)` followed by
`degrees()` is off by far more than one step's angular resolution
(`360/360 = 1` degree). -/
theorem C9_counterexample :
    ¬ |((Position.mk 0 1).set_degrees ((2 : ℚ) ^ 64)).degrees - (2 : ℚ) ^ 64| ≤
      360 / ((360 : ℕ) : ℚ) := by
  have h : ((Position.mk 0 1).set_degrees ((2 : ℚ) ^ 64)).degrees =
      (2 : ℚ) ^ 63 - 1 := by
    norm_num [Position.set_degrees, Position.degrees, Steps.from_degrees,
      Steps.to_degrees, f32toI64, ratTrunc]
  rw [h, abs_of_nonpos (by norm_num)]
  norm_num

/-- C9 (amended): for every `Position` whose `steps_per_degree` is
`steps_per_revolution / 360` with `steps_per_revolution > 0`, and every degree
value `d` whose step image stays within the `i64` range
(`|d·steps_per_degree| < 2^63`, where the saturating cast is exact),
`set_degrees(d)` then `degrees()` returns a value within one step's angular
resolution (`360/steps_per_revolution`) of `d`; the counterexample shows the
claim fails for degree values beyond that range. -/
theorem C9_amended_roundtrip (N : ℕ) (p : Position) (d : ℚ)
    (hN : 0 < N) (hspd : p.steps_per_degree = (N : ℚ) / 360)
    (hrange : |d * p.steps_per_degree| < 2 ^ 63) :
    |(p.set_degrees d).degrees - d| ≤ 360 / (N : ℚ) := by
  have hNQ : (0 : ℚ) < (N : ℚ) := by exact_mod_cast hN
  have hspd_pos : 0 < p.steps_per_degree := by
    rw [hspd]
    positivity
  have hsat : f32toI64 (d * p.steps_per_degree) =
      ratTrunc (d * p.steps_per_degree) := by
    have habs : |((ratTrunc (d * p.steps_per_degree) : ℤ) : ℚ)| < 2 ^ 63 :=
      lt_of_le_of_lt (ratTrunc_abs_le _) hrange
    have hlo : -(2 ^ 63) < (ratTrunc (d * p.steps_per_degree) : ℤ) := by
      have h2 := (abs_lt.mp habs).1
      exact_mod_cast h2
    have hhi : (ratTrunc (d * p.steps_per_degree) : ℤ) < 2 ^ 63 := by
      have h2 := (abs_lt.mp habs).2
      exact_mod_cast h2
    unfold f32toI64
    omega
  have hdeg : (p.set_degrees d).degrees =
      ((ratTrunc (d * p.steps_per_degree) : ℤ) : ℚ) / p.steps_per_degree := by
    unfold Position.set_degrees Position.degrees Steps.to_degrees
      Steps.from_degrees
    simp only []
    rw [hsat]
  rw [hdeg]
  have herr := ratTrunc_err_lt (d * p.steps_per_degree)
  have hres : 360 / (N : ℚ) * p.steps_per_degree = 1 := by
    rw [hspd]
    field_simp
  have key : ((ratTrunc (d * p.steps_per_degree) : ℤ) : ℚ) / p.steps_per_degree
      - d =
      (((ratTrunc (d * p.steps_per_degree) : ℤ) : ℚ) - d * p.steps_per_degree) /
        p.steps_per_degree := by
    field_simp
    ring
  rw [key, abs_div, abs_of_pos hspd_pos, div_le_iff₀ hspd_pos, hres]
  exact le_of_lt herr

theorem C9_witness :
    |((Position.mk 0 1).set_degrees ((7 : ℚ) / 2)).degrees - (7 : ℚ) / 2| ≤
      360 / ((360 : ℕ) : ℚ) :=
  C9_amended_roundtrip 360 (Position.mk 0 1) ((7 : ℚ) / 2) (by norm_num)
    (by norm_num) (by
      have h : ((7 : ℚ) / 2) * (Position.mk 0 1).steps_per_degree = 7 / 2 := by
        norm_num
      rw [h, abs_of_nonneg (by norm_num)]
      norm_num)
